import Mathlib

/-!
Verification of the e1000 NIC driver (src/nic.rs) against its design
specification.  The driver's hardware interaction is modelled by an explicit
trace of MMIO register events; the device behind BAR0 is an arbitrary
function from the access history to the 32-bit value the next read returns.
Methods taking `&self`/`&mut self` are embedded in state-passing style: each
takes the NIC record and the trace so far and returns its result together
with the (possibly updated) record and the extended trace.  The source's
unbounded poll loop is unrolled up to an explicit fuel bound; exhausting the
fuel yields a distinguished `spin` outcome, and a `todo!()` panic yields a
distinguished panic outcome.
-/

namespace E1000

/-- One volatile 32-bit access to the BAR0 register window: a read together
with the value the device returned, or a write of a value. -/
inductive Ev where
  | read (addr val : Nat)
  | write (addr val : Nat)
deriving DecidableEq

/-- The register offset an event touches. -/
def Ev.addr : Ev → Nat
  | .read a _ => a
  | .write a _ => a

/-- Behaviour of the device behind BAR0: the value a 32-bit read of `addr`
returns, as a function of the whole access history. -/
def Bar : Type := List Ev → Nat → Nat

/-- Register address: EEPROM/Flash Control and Data. -/
def REG_EECD : Nat := 0x10
/-- Register address: EEPROM Read Register. -/
def REG_EERD : Nat := 0x14

/-- Transmit descriptor command flag: End of Packet. -/
def TX_CMD_EOP : Nat := 0x01
/-- Transmit descriptor command flag: Insertion of FCS. -/
def TX_CMD_IFCS : Nat := 0x02
/-- Transmit descriptor command flag: Insert checksum. -/
def TX_CMD_IC : Nat := 0x04
/-- Transmit descriptor command flag: Report status. -/
def TX_CMD_RS : Nat := 0x08
/-- Transmit descriptor command flag: Report Packet Sent. -/
def TX_CMD_RPS : Nat := 0x10
/-- Transmit descriptor command flag: VLAN Packet Enable. -/
def TX_CMD_VLE : Nat := 0x40
/-- Transmit descriptor command flag: Interrupt Delay Enable. -/
def TX_CMD_IDE : Nat := 0x80

/-- The NIC device state (struct NIC of src/nic.rs): the PCI status and
command register values (u16), the BAR0 window (represented by its read
behaviour), the EEPROM-presence flag and the 6-byte MAC address. -/
structure NIC where
  status_reg : Nat
  command_reg : Nat
  bar0 : Bar
  eeprom_exists : Bool
  mac : List Nat

/-- NIC::read_command: a volatile 32-bit read of BAR0 at `addr`.  The value
the device supplies is truncated to u32; the record is taken and returned
unchanged (the method borrows `&self`). -/
def read_command (n : NIC) (tr : List Ev) (addr : Nat) : Nat × NIC × List Ev :=
  let v := n.bar0 tr addr % 4294967296
  (v, n, tr ++ [Ev.read addr v])

/-- NIC::write_command: a volatile 32-bit write of `val` to BAR0 at `addr`.
Every value the driver writes is already a u32 (reads are truncated and the
issue value is below 2^16), so no further mask is applied. -/
def write_command (n : NIC) (tr : List Ev) (addr val : Nat) : NIC × List Ev :=
  (n, tr ++ [Ev.write addr val])

/-- NIC::detect_eeprom: one read of EECD; bit 8 of the value tells whether an
EEPROM is present, and the result is stored in the `eeprom_exists` field. -/
def detect_eeprom (n : NIC) (tr : List Ev) : NIC × List Ev :=
  let (v, n, tr) := read_command n tr REG_EECD
  ({ n with eeprom_exists := v &&& (1 <<< 8) != 0 }, tr)

/-- The poll loop inside NIC::eeprom_read: read EERD until bit 4 (done) is
set, then extract bits [31:16].  The source loop is unbounded; the model
unrolls at most `fuel` iterations and reports `none` past that. -/
def pollEERD (n : NIC) : Nat → List Ev → Option Nat × List Ev
  | 0, tr => (none, tr)
  | fuel + 1, tr =>
    let (val, _, tr') := read_command n tr REG_EERD
    if val &&& (1 <<< 4) ≠ 0 then (some ((val >>> 16) &&& 0xffff), tr')
    else pollEERD n fuel tr'

/-- Outcome of NIC::eeprom_read: the extracted data word, the `todo!()` panic
of the missing flash-read path, or `spin` when the poll loop has not observed
the done bit within the unrolled iterations (the source then spins on). -/
inductive EepromOutcome where
  | ok (data : Nat) (n : NIC) (tr : List Ev)
  | flash_todo (n : NIC) (tr : List Ev)
  | spin (n : NIC) (tr : List Ev)

/-- The NIC record an eeprom_read outcome carries. -/
def EepromOutcome.nic : EepromOutcome → NIC
  | .ok _ n _ => n
  | .flash_todo n _ => n
  | .spin n _ => n

/-- The trace an eeprom_read outcome carries. -/
def EepromOutcome.trace : EepromOutcome → List Ev
  | .ok _ _ tr => tr
  | .flash_todo _ tr => tr
  | .spin _ tr => tr

/-- Replace the NIC record an eeprom_read outcome carries. -/
def EepromOutcome.withNic : EepromOutcome → NIC → EepromOutcome
  | .ok d _ tr, n => .ok d n tr
  | .flash_todo _ tr, n => .flash_todo n tr
  | .spin _ tr, n => .spin n tr

/-- NIC::eeprom_read at word address `addr` (a u8): acquire the EEPROM by
setting bit 6 of EECD, issue the read by writing EERD with bit 0 set and the
address in bits [15:8], poll EERD for the done bit and extract the data from
bits [31:16], release by clearing bit 6 of EECD.  When no EEPROM was
detected the source hits a `todo!()` before the release. -/
def eeprom_read (n : NIC) (addr : Nat) (fuel : Nat) (tr : List Ev) : EepromOutcome :=
  let (v, n, tr) := read_command n tr REG_EECD
  let (n, tr) := write_command n tr REG_EECD (v ||| (1 <<< 6))
  let (n, tr) := write_command n tr REG_EERD (1 ||| ((addr % 256) <<< 8))
  if n.eeprom_exists then
    match pollEERD n fuel tr with
    | (some data, tr) =>
      let (v2, n, tr) := read_command n tr REG_EECD
      let (n, tr) := write_command n tr REG_EECD (v2 &&& 0xFFFFFFBF)
      .ok data n tr
    | (none, tr) => .spin n tr
  else
    .flash_todo n tr

/-- Outcome of NIC::read_mac: the updated record, or the propagated panic or
spin of one of the three EEPROM reads. -/
inductive MacOutcome where
  | ok (n : NIC) (tr : List Ev)
  | flash_todo (n : NIC) (tr : List Ev)
  | spin (n : NIC) (tr : List Ev)

/-- The NIC record a read_mac outcome carries. -/
def MacOutcome.nic : MacOutcome → NIC
  | .ok n _ => n
  | .flash_todo n _ => n
  | .spin n _ => n

/-- The trace a read_mac outcome carries. -/
def MacOutcome.trace : MacOutcome → List Ev
  | .ok _ tr => tr
  | .flash_todo _ tr => tr
  | .spin _ tr => tr

/-- NIC::read_mac: three EEPROM word reads at addresses 0, 1, 2; each word's
low byte and then its high byte become the next two bytes of the MAC. -/
def read_mac (n : NIC) (fuel : Nat) (tr : List Ev) : MacOutcome :=
  match eeprom_read n 0 fuel tr with
  | .flash_todo n tr => .flash_todo n tr
  | .spin n tr => .spin n tr
  | .ok val n tr =>
    let n := { n with mac := (n.mac.set 0 (val &&& 0xff)).set 1 ((val >>> 8) &&& 0xff) }
    match eeprom_read n 1 fuel tr with
    | .flash_todo n tr => .flash_todo n tr
    | .spin n tr => .spin n tr
    | .ok val n tr =>
      let n := { n with mac := (n.mac.set 2 (val &&& 0xff)).set 3 ((val >>> 8) &&& 0xff) }
      match eeprom_read n 2 fuel tr with
      | .flash_todo n tr => .flash_todo n tr
      | .spin n tr => .spin n tr
      | .ok val n tr =>
        .ok { n with mac := (n.mac.set 4 (val &&& 0xff)).set 5 ((val >>> 8) &&& 0xff) } tr

/-- Outcome of a body that is an unconditional `todo!()`. -/
inductive TodoPanic where
  | panic (tr : List Ev)

/-- NIC::init_desc: the body is `todo!()`, an unconditional panic. -/
def init_desc (_n : NIC) (tr : List Ev) : TodoPanic := .panic tr

/-- The inbound boundary from the device-enumeration subsystem: the optional
status and command register values (u16) and the optional BAR0 window. -/
structure PhysicalDevice where
  status_reg : Option Nat
  command_reg : Option Nat
  bar0 : Option Bar

/-- Outcome of NIC::new: a constructed NIC (never produced by the source,
since init_desc panics), a recoverable error, a `todo!()` panic at the flash
path of eeprom_read or at init_desc, or an unbounded spin in the poll loop. -/
inductive NewOutcome where
  | ok (n : NIC) (tr : List Ev)
  | err (msg : String)
  | flash_panic (tr : List Ev)
  | init_desc_panic (tr : List Ev)
  | spin (tr : List Ev)

/-- The trace a construction outcome carries (none for an early error). -/
def NewOutcome.trace : NewOutcome → List Ev
  | .ok _ tr => tr
  | .err _ => []
  | .flash_panic tr => tr
  | .init_desc_panic tr => tr
  | .spin tr => tr

/-- The record NIC::new builds before detect_eeprom runs: the two register
values (u16), the cloned BAR0, `eeprom_exists: false` and `mac: [0; 6]`. -/
def initialNIC (status_reg command_reg : Nat) (bar0 : Bar) : NIC :=
  { status_reg := status_reg % 65536
    command_reg := command_reg % 65536
    bar0 := bar0
    eeprom_exists := false
    mac := [0, 0, 0, 0, 0, 0] }

/-- NIC::new: take the status register, command register and BAR0 from the
device, erroring on a missing one; then detect_eeprom, read_mac and
init_desc on the fresh record. -/
def NIC.new (dev : PhysicalDevice) (fuel : Nat) : NewOutcome :=
  match dev.status_reg with
  | none => .err "Invalid PCI informations for NIC!"
  | some status_reg =>
    match dev.command_reg with
    | none => .err "Invalid PCI informations for NIC!"
    | some command_reg =>
      match dev.bar0 with
      | none => .err "Invalid BAR for NIC!"
      | some bar0 =>
        let (n, tr) := detect_eeprom (initialNIC status_reg command_reg bar0) []
        match read_mac n fuel tr with
        | .flash_todo _ tr => .flash_panic tr
        | .spin _ tr => .spin tr
        | .ok n tr =>
          match init_desc n tr with
          | .panic tr => .init_desc_panic tr

/-- net::Interface::get_mac for NIC: the cached MAC field. -/
def get_mac (n : NIC) : List Nat := n.mac

/-- The maximum payload length of one transmit descriptor (u16::MAX). -/
def TX_MAX : Nat := 65535

/-- The driver-visible fields of one legacy transmit descriptor
(struct TXDesc of src/nic.rs). -/
structure TXDesc where
  addr : Nat
  length : Nat
  cso : Nat
  cmd : Nat
  status : Nat
  css : Nat
  special : Nat
deriving DecidableEq

/-- Modelled from the spec: the chunk-splitting loop of the transmit path
(net::Interface::write for NIC, whose body in the source is a `todo!()`
placeholder sketched in a comment).  Splits a buffer at physical address
`base` of length `len` into consecutive chunks of at most TX_MAX bytes; the
first argument is fuel, and any fuel of at least the chunk count (the
wrapper passes `len`) yields the full split. -/
def txSplitAux : Nat → Nat → Nat → List (Nat × Nat)
  | 0, _, _ => []
  | fuel + 1, base, len =>
    if len = 0 then []
    else if len ≤ TX_MAX then [(base, len)]
    else (base, TX_MAX) :: txSplitAux fuel (base + TX_MAX) (len - TX_MAX)

/-- Modelled from the spec: the chunks of a transmit buffer at `base` of
length `len`, in order. -/
def txSplit (base len : Nat) : List (Nat × Nat) := txSplitAux len base len

/-- Modelled from the spec: the transmit descriptor populated for one chunk —
Insert-FCS and Report-Status always set in the command byte, End-of-Packet
only on the final chunk, checksum offload disabled. -/
def txDescFor (chunk : Nat × Nat) (isLast : Bool) : TXDesc :=
  { addr := chunk.1
    length := chunk.2
    cso := 0
    cmd := (TX_CMD_IFCS ||| TX_CMD_RS) ||| (if isLast then TX_CMD_EOP else 0)
    status := 0
    css := 0
    special := 0 }

/-- Modelled from the spec: the descriptors for a chunk list, marking the
last chunk as End-of-Packet. -/
def txDescs : List (Nat × Nat) → List TXDesc
  | [] => []
  | [c] => [txDescFor c true]
  | c :: c' :: cs => txDescFor c false :: txDescs (c' :: cs)

/-- Modelled from the spec: the transmit descriptors the write path produces
for an outbound buffer at physical address `base` of length `len`. -/
def txWrite (base len : Nat) : List TXDesc := txDescs (txSplit base len)

/-! ### Lemmas about the poll loop -/

/-- A successful poll appends some reads of EERD in which bit 4 was clear and
a final read in which it was set; the data is bits [31:16] of that final
read. -/
lemma pollEERD_some_shape (n : NIC) :
    ∀ fuel tr data tr', pollEERD n fuel tr = (some data, tr') →
    ∃ (vs : List Nat) (v : Nat), tr' = tr ++ vs.map (fun u => Ev.read REG_EERD u) ++ [Ev.read REG_EERD v] ∧
      (∀ u ∈ vs, u &&& (1 <<< 4) = 0) ∧ v &&& (1 <<< 4) ≠ 0 ∧
      data = (v >>> 16) &&& 0xffff := by
  intro fuel
  induction fuel with
  | zero => intro tr data tr' h; simp [pollEERD] at h
  | succ k ih =>
    intro tr data tr' h
    rw [pollEERD] at h
    simp only [read_command] at h
    by_cases hb : n.bar0 tr REG_EERD % 4294967296 &&& (1 <<< 4) ≠ 0
    · rw [if_pos hb] at h
      obtain ⟨hdata, htr⟩ := Prod.mk.injEq .. ▸ h
      refine ⟨[], n.bar0 tr REG_EERD % 4294967296, ?_, ?_, hb, ?_⟩
      · simp [htr.symm]
      · simp
      · exact (Option.some.injEq .. ▸ hdata).symm
    · rw [if_neg hb] at h
      obtain ⟨vs, v, htr, hclear, hset, hdata⟩ := ih _ _ _ h
      refine ⟨n.bar0 tr REG_EERD % 4294967296 :: vs, v, ?_, ?_, hset, hdata⟩
      · simp [htr, List.append_assoc]
      · intro u hu
        rcases List.mem_cons.mp hu with h0 | h0
        · subst h0; simpa using hb
        · exact hclear u h0

/-- The poll loop only reads EERD, and only extends the trace. -/
lemma pollEERD_addrs (n : NIC) :
    ∀ fuel tr, ∃ s : List Ev, (pollEERD n fuel tr).2 = tr ++ s ∧ ∀ e ∈ s, Ev.addr e = REG_EERD := by
  intro fuel
  induction fuel with
  | zero =>
    intro tr
    exact ⟨[], by simp [pollEERD], by simp⟩
  | succ k ih =>
    intro tr
    rw [pollEERD]
    simp only [read_command]
    by_cases hb : n.bar0 tr REG_EERD % 4294967296 &&& (1 <<< 4) ≠ 0
    · rw [if_pos hb]
      exact ⟨[Ev.read REG_EERD (n.bar0 tr REG_EERD % 4294967296)], rfl, by
        intro e he; simp at he; subst he; rfl⟩
    · rw [if_neg hb]
      obtain ⟨s, hs, hmem⟩ := ih (tr ++ [Ev.read REG_EERD (n.bar0 tr REG_EERD % 4294967296)])
      refine ⟨Ev.read REG_EERD (n.bar0 tr REG_EERD % 4294967296) :: s, ?_, ?_⟩
      · simp [hs]
      · intro e he
        rcases List.mem_cons.mp he with h0 | h0
        · subst h0; rfl
        · exact hmem e h0

/-- The poll loop depends on the NIC record only through its BAR0. -/
lemma pollEERD_congr (n₁ n₂ : NIC) (hb : n₁.bar0 = n₂.bar0) :
    ∀ fuel tr, pollEERD n₁ fuel tr = pollEERD n₂ fuel tr := by
  intro fuel
  induction fuel with
  | zero => intro tr; rfl
  | succ k ih => intro tr; simp only [pollEERD, read_command, hb, ih]

/-! ### Lemmas about eeprom_read -/

/-- eeprom_read takes `&self`: the record in every outcome is the one passed
in, unchanged. -/
lemma eeprom_read_nic (n : NIC) (addr fuel : Nat) (tr : List Ev) :
    (eeprom_read n addr fuel tr).nic = n := by
  rw [eeprom_read]
  simp only [read_command, write_command]
  split
  · split
    · simp [EepromOutcome.nic]
    · simp [EepromOutcome.nic]
  · simp [EepromOutcome.nic]

/-- eeprom_read only appends events, and only at the EECD and EERD offsets. -/
lemma eeprom_read_addrs (n : NIC) (addr fuel : Nat) (tr : List Ev) :
    ∃ s : List Ev, (eeprom_read n addr fuel tr).trace = tr ++ s ∧
      ∀ e ∈ s, Ev.addr e = REG_EECD ∨ Ev.addr e = REG_EERD := by
  rw [eeprom_read]
  simp only [read_command, write_command]
  set v0 := n.bar0 tr REG_EECD % 4294967296 with hv0
  set t3 := tr ++ [Ev.read REG_EECD v0] ++ [Ev.write REG_EECD (v0 ||| (1 <<< 6))] ++
    [Ev.write REG_EERD (1 ||| ((addr % 256) <<< 8))] with ht3
  have ht3' : t3 = tr ++ [Ev.read REG_EECD v0, Ev.write REG_EECD (v0 ||| (1 <<< 6)),
      Ev.write REG_EERD (1 ||| ((addr % 256) <<< 8))] := by
    simp [ht3]
  have hhead : ∀ e ∈ [Ev.read REG_EECD v0, Ev.write REG_EECD (v0 ||| (1 <<< 6)),
      Ev.write REG_EERD (1 ||| ((addr % 256) <<< 8))],
      Ev.addr e = REG_EECD ∨ Ev.addr e = REG_EERD := by
    intro e he
    simp only [List.mem_cons, List.not_mem_nil, or_false] at he
    rcases he with rfl | rfl | rfl
    · exact Or.inl rfl
    · exact Or.inl rfl
    · exact Or.inr rfl
  split
  · obtain ⟨s, hs, hmem⟩ := pollEERD_addrs n fuel t3
    split
    next data t hp =>
      rw [hp] at hs
      refine ⟨[Ev.read REG_EECD v0, Ev.write REG_EECD (v0 ||| (1 <<< 6)),
        Ev.write REG_EERD (1 ||| ((addr % 256) <<< 8))] ++ s ++
        [Ev.read REG_EECD (n.bar0 t REG_EECD % 4294967296),
         Ev.write REG_EECD (n.bar0 t REG_EECD % 4294967296 &&& 0xFFFFFFBF)], ?_, ?_⟩
      · simp only [EepromOutcome.trace]
        simp at hs
        simp [hs, ht3', List.append_assoc]
      · intro e he
        simp only [List.mem_append] at he
        rcases he with (he | he) | he
        · exact hhead e he
        · exact Or.inr (hmem e he)
        · simp only [List.mem_cons, List.not_mem_nil, or_false] at he
          rcases he with rfl | rfl
          · exact Or.inl rfl
          · exact Or.inl rfl
    next t hp =>
      rw [hp] at hs
      refine ⟨[Ev.read REG_EECD v0, Ev.write REG_EECD (v0 ||| (1 <<< 6)),
        Ev.write REG_EERD (1 ||| ((addr % 256) <<< 8))] ++ s, ?_, ?_⟩
      · simp only [EepromOutcome.trace]
        simp at hs
        simp [hs, ht3', List.append_assoc]
      · intro e he
        simp only [List.mem_append] at he
        rcases he with he | he
        · exact hhead e he
        · exact Or.inr (hmem e he)
  · refine ⟨[Ev.read REG_EECD v0, Ev.write REG_EECD (v0 ||| (1 <<< 6)),
      Ev.write REG_EERD (1 ||| ((addr % 256) <<< 8))], ?_, hhead⟩
    simp [EepromOutcome.trace, ht3']

/-- Full characterization of a successful eeprom_read: the EEPROM was
present, and the trace delta is exactly acquire (read-modify-write of EECD
setting bit 6), issue (write of EERD with bit 0 and the address in bits
[15:8]), the polls up to the first read with the done bit set, and release
(read-modify-write of EECD clearing bit 6); the data is bits [31:16] of the
read in which the done bit was first observed. -/
lemma eeprom_read_ok_shape (n : NIC) (addr fuel : Nat) (tr : List Ev)
    (data : Nat) (n' : NIC) (tr' : List Ev)
    (h : eeprom_read n addr fuel tr = .ok data n' tr') :
    n' = n ∧ n.eeprom_exists = true ∧
    ∃ (v0 : Nat) (vs : List Nat) (v v1 : Nat),
      tr' = tr ++ [Ev.read REG_EECD v0, Ev.write REG_EECD (v0 ||| (1 <<< 6)),
          Ev.write REG_EERD (1 ||| ((addr % 256) <<< 8))]
        ++ vs.map (fun u => Ev.read REG_EERD u) ++ [Ev.read REG_EERD v]
        ++ [Ev.read REG_EECD v1, Ev.write REG_EECD (v1 &&& 0xFFFFFFBF)] ∧
      (∀ u ∈ vs, u &&& (1 <<< 4) = 0) ∧ v &&& (1 <<< 4) ≠ 0 ∧
      data = (v >>> 16) &&& 0xffff := by
  rw [eeprom_read] at h
  simp only [read_command, write_command] at h
  set v0 := n.bar0 tr REG_EECD % 4294967296 with hv0
  set t3 := tr ++ [Ev.read REG_EECD v0] ++ [Ev.write REG_EECD (v0 ||| (1 <<< 6))] ++
    [Ev.write REG_EERD (1 ||| ((addr % 256) <<< 8))] with ht3
  split at h
  case isTrue he =>
    split at h
    next d t hp =>
      simp only [EepromOutcome.ok.injEq] at h
      obtain ⟨hd, hn, ht⟩ := h
      obtain ⟨vs, v, htr, hclear, hset, hdata⟩ := pollEERD_some_shape n fuel t3 d t hp
      refine ⟨hn.symm, he, v0, vs, v, n.bar0 t REG_EECD % 4294967296, ?_, hclear, hset, ?_⟩
      · rw [← ht, htr, ht3]
        simp [List.append_assoc]
      · rw [← hd, hdata]
    next t hp =>
      exact absurd h (by simp)
  case isFalse he =>
    exact absurd h (by simp)

/-- eeprom_read depends on the record only through its BAR0 and its
EEPROM-presence flag; the record it hands back is the one passed in. -/
lemma eeprom_read_congr (n₁ n₂ : NIC) (hb : n₁.bar0 = n₂.bar0)
    (he : n₁.eeprom_exists = n₂.eeprom_exists) (addr fuel : Nat) (tr : List Ev) :
    eeprom_read n₁ addr fuel tr = (eeprom_read n₂ addr fuel tr).withNic n₁ := by
  rw [eeprom_read, eeprom_read]
  simp only [read_command, write_command, hb, he, pollEERD_congr n₁ n₂ hb]
  split
  · split
    · simp [EepromOutcome.withNic, hb]
    · simp [EepromOutcome.withNic]
  · simp [EepromOutcome.withNic]

/-! ### Lemmas about read_mac -/

/-- read_mac changes nothing of the record but the mac field. -/
lemma read_mac_nic_frame (n : NIC) (fuel : Nat) (tr : List Ev) :
    (read_mac n fuel tr).nic = { n with mac := (read_mac n fuel tr).nic.mac } := by
  rw [read_mac]
  cases h0 : eeprom_read n 0 fuel tr with
  | flash_todo n0 t0 =>
    have hn := eeprom_read_nic n 0 fuel tr
    rw [h0] at hn
    simp only [EepromOutcome.nic] at hn
    subst n0
    simp [MacOutcome.nic]
  | spin n0 t0 =>
    have hn := eeprom_read_nic n 0 fuel tr
    rw [h0] at hn
    simp only [EepromOutcome.nic] at hn
    subst n0
    simp [MacOutcome.nic]
  | ok w0 n0 t0 =>
    have hn := eeprom_read_nic n 0 fuel tr
    rw [h0] at hn
    simp only [EepromOutcome.nic] at hn
    subst n0
    simp only []
    cases h1 : eeprom_read { n with mac := (n.mac.set 0 (w0 &&& 0xff)).set 1 ((w0 >>> 8) &&& 0xff) }
        1 fuel t0 with
    | flash_todo n1 t1 =>
      have hn := eeprom_read_nic { n with mac := (n.mac.set 0 (w0 &&& 0xff)).set 1 ((w0 >>> 8) &&& 0xff) } 1 fuel t0
      rw [h1] at hn
      simp only [EepromOutcome.nic] at hn
      subst n1
      simp [MacOutcome.nic]
    | spin n1 t1 =>
      have hn := eeprom_read_nic { n with mac := (n.mac.set 0 (w0 &&& 0xff)).set 1 ((w0 >>> 8) &&& 0xff) } 1 fuel t0
      rw [h1] at hn
      simp only [EepromOutcome.nic] at hn
      subst n1
      simp [MacOutcome.nic]
    | ok w1 n1 t1 =>
      have hn := eeprom_read_nic { n with mac := (n.mac.set 0 (w0 &&& 0xff)).set 1 ((w0 >>> 8) &&& 0xff) } 1 fuel t0
      rw [h1] at hn
      simp only [EepromOutcome.nic] at hn
      subst n1
      simp only []
      cases h2 : eeprom_read { n with mac := (((n.mac.set 0 (w0 &&& 0xff)).set 1 ((w0 >>> 8) &&& 0xff)).set 2 (w1 &&& 0xff)).set 3 ((w1 >>> 8) &&& 0xff) } 2 fuel t1 with
      | flash_todo n2 t2 =>
        have hn := eeprom_read_nic { n with mac := (((n.mac.set 0 (w0 &&& 0xff)).set 1 ((w0 >>> 8) &&& 0xff)).set 2 (w1 &&& 0xff)).set 3 ((w1 >>> 8) &&& 0xff) } 2 fuel t1
        rw [h2] at hn
        simp only [EepromOutcome.nic] at hn
        subst n2
        simp [MacOutcome.nic]
      | spin n2 t2 =>
        have hn := eeprom_read_nic { n with mac := (((n.mac.set 0 (w0 &&& 0xff)).set 1 ((w0 >>> 8) &&& 0xff)).set 2 (w1 &&& 0xff)).set 3 ((w1 >>> 8) &&& 0xff) } 2 fuel t1
        rw [h2] at hn
        simp only [EepromOutcome.nic] at hn
        subst n2
        simp [MacOutcome.nic]
      | ok w2 n2 t2 =>
        have hn := eeprom_read_nic { n with mac := (((n.mac.set 0 (w0 &&& 0xff)).set 1 ((w0 >>> 8) &&& 0xff)).set 2 (w1 &&& 0xff)).set 3 ((w1 >>> 8) &&& 0xff) } 2 fuel t1
        rw [h2] at hn
        simp only [EepromOutcome.nic] at hn
        subst n2
        simp [MacOutcome.nic]

/-- read_mac preserves the EEPROM-presence flag. -/
lemma read_mac_flag (n : NIC) (fuel : Nat) (tr : List Ev) :
    (read_mac n fuel tr).nic.eeprom_exists = n.eeprom_exists := by
  conv_lhs => rw [read_mac_nic_frame]

/-- read_mac only appends events to the trace. -/
lemma read_mac_trace_extends (n : NIC) (fuel : Nat) (tr : List Ev) :
    ∃ s : List Ev, (read_mac n fuel tr).trace = tr ++ s := by
  rw [read_mac]
  cases h0 : eeprom_read n 0 fuel tr with
  | flash_todo n0 t0 =>
    obtain ⟨s, hs, _⟩ := eeprom_read_addrs n 0 fuel tr
    rw [h0] at hs
    exact ⟨s, by simpa [MacOutcome.trace] using hs⟩
  | spin n0 t0 =>
    obtain ⟨s, hs, _⟩ := eeprom_read_addrs n 0 fuel tr
    rw [h0] at hs
    exact ⟨s, by simpa [MacOutcome.trace] using hs⟩
  | ok w0 n0 t0 =>
    obtain ⟨s0, hs0, _⟩ := eeprom_read_addrs n 0 fuel tr
    rw [h0] at hs0
    simp only [EepromOutcome.trace] at hs0
    simp only []
    cases h1 : eeprom_read { n0 with mac := (n0.mac.set 0 (w0 &&& 0xff)).set 1 ((w0 >>> 8) &&& 0xff) } 1 fuel t0 with
    | flash_todo n1 t1 =>
      obtain ⟨s1, hs1, _⟩ := eeprom_read_addrs { n0 with mac := (n0.mac.set 0 (w0 &&& 0xff)).set 1 ((w0 >>> 8) &&& 0xff) } 1 fuel t0
      rw [h1] at hs1
      simp only [EepromOutcome.trace] at hs1
      exact ⟨s0 ++ s1, by simp [MacOutcome.trace, hs1, hs0]⟩
    | spin n1 t1 =>
      obtain ⟨s1, hs1, _⟩ := eeprom_read_addrs { n0 with mac := (n0.mac.set 0 (w0 &&& 0xff)).set 1 ((w0 >>> 8) &&& 0xff) } 1 fuel t0
      rw [h1] at hs1
      simp only [EepromOutcome.trace] at hs1
      exact ⟨s0 ++ s1, by simp [MacOutcome.trace, hs1, hs0]⟩
    | ok w1 n1 t1 =>
      obtain ⟨s1, hs1, _⟩ := eeprom_read_addrs { n0 with mac := (n0.mac.set 0 (w0 &&& 0xff)).set 1 ((w0 >>> 8) &&& 0xff) } 1 fuel t0
      rw [h1] at hs1
      simp only [EepromOutcome.trace] at hs1
      simp only []
      cases h2 : eeprom_read { n1 with mac := ((n1.mac.set 2 (w1 &&& 0xff)).set 3 ((w1 >>> 8) &&& 0xff)) } 2 fuel t1 with
      | flash_todo n2 t2 =>
        obtain ⟨s2, hs2, _⟩ := eeprom_read_addrs { n1 with mac := ((n1.mac.set 2 (w1 &&& 0xff)).set 3 ((w1 >>> 8) &&& 0xff)) } 2 fuel t1
        rw [h2] at hs2
        simp only [EepromOutcome.trace] at hs2
        exact ⟨s0 ++ s1 ++ s2, by simp [MacOutcome.trace, hs2, hs1, hs0]⟩
      | spin n2 t2 =>
        obtain ⟨s2, hs2, _⟩ := eeprom_read_addrs { n1 with mac := ((n1.mac.set 2 (w1 &&& 0xff)).set 3 ((w1 >>> 8) &&& 0xff)) } 2 fuel t1
        rw [h2] at hs2
        simp only [EepromOutcome.trace] at hs2
        exact ⟨s0 ++ s1 ++ s2, by simp [MacOutcome.trace, hs2, hs1, hs0]⟩
      | ok w2 n2 t2 =>
        obtain ⟨s2, hs2, _⟩ := eeprom_read_addrs { n1 with mac := ((n1.mac.set 2 (w1 &&& 0xff)).set 3 ((w1 >>> 8) &&& 0xff)) } 2 fuel t1
        rw [h2] at hs2
        simp only [EepromOutcome.trace] at hs2
        exact ⟨s0 ++ s1 ++ s2, by simp [MacOutcome.trace, hs2, hs1, hs0]⟩

/-- Writing all six positions of a 6-element list yields the literal list of
the written values. -/
lemma set6 (l : List Nat) (h : l.length = 6) (x0 x1 x2 x3 x4 x5 : Nat) :
    (((((l.set 0 x0).set 1 x1).set 2 x2).set 3 x3).set 4 x4).set 5 x5 =
      [x0, x1, x2, x3, x4, x5] := by
  obtain ⟨a, b, c, d, e, f, rfl⟩ : ∃ a b c d e f, l = [a, b, c, d, e, f] := by
    rcases l with _ | ⟨a, _ | ⟨b, _ | ⟨c, _ | ⟨d, _ | ⟨e, _ | ⟨f, _ | ⟨g, l⟩⟩⟩⟩⟩⟩⟩ <;>
      simp at h
    exact ⟨a, b, c, d, e, f, rfl⟩
  rfl

/-! ### The claims -/

/-- C1: read_mac invokes eeprom_read at word offsets 0, 1, 2, and for every
triple of words those reads return, byte 2k of the resulting MAC is the low
byte of word k and byte 2k+1 is its high byte, so the MAC is exactly
[w0.lo, w0.hi, w1.lo, w1.hi, w2.lo, w2.hi]. -/
theorem read_mac_little_endian_pairs (n : NIC) (fuel : Nat) (tr : List Ev)
    (n' : NIC) (tr' : List Ev) (hlen : n.mac.length = 6)
    (h : read_mac n fuel tr = .ok n' tr') :
    ∃ (w0 : Nat) (tr0 : List Ev) (w1 : Nat) (tr1 : List Ev) (w2 : Nat),
      eeprom_read n 0 fuel tr = .ok w0 n tr0 ∧
      eeprom_read n 1 fuel tr0 = .ok w1 n tr1 ∧
      eeprom_read n 2 fuel tr1 = .ok w2 n tr' ∧
      n'.mac = [w0 &&& 0xff, (w0 >>> 8) &&& 0xff, w1 &&& 0xff, (w1 >>> 8) &&& 0xff,
        w2 &&& 0xff, (w2 >>> 8) &&& 0xff] := by
  rw [read_mac] at h
  cases h0 : eeprom_read n 0 fuel tr with
  | flash_todo n0 t0 => simp [h0] at h
  | spin n0 t0 => simp [h0] at h
  | ok w0 n0 t0 =>
    have hn0 := eeprom_read_nic n 0 fuel tr
    rw [h0] at hn0
    simp only [EepromOutcome.nic] at hn0
    subst n0
    simp only [h0] at h
    rw [eeprom_read_congr { n with mac := (n.mac.set 0 (w0 &&& 0xff)).set 1 ((w0 >>> 8) &&& 0xff) }
      n rfl rfl 1 fuel t0] at h
    cases h1 : eeprom_read n 1 fuel t0 with
    | flash_todo n1 t1 => simp [h1, EepromOutcome.withNic] at h
    | spin n1 t1 => simp [h1, EepromOutcome.withNic] at h
    | ok w1 n1 t1 =>
      have hn1 := eeprom_read_nic n 1 fuel t0
      rw [h1] at hn1
      simp only [EepromOutcome.nic] at hn1
      subst n1
      simp only [h1, EepromOutcome.withNic] at h
      rw [eeprom_read_congr { n with mac := (((n.mac.set 0 (w0 &&& 0xff)).set 1 ((w0 >>> 8) &&& 0xff)).set 2 (w1 &&& 0xff)).set 3 ((w1 >>> 8) &&& 0xff) } n rfl rfl 2 fuel t1] at h
      cases h2 : eeprom_read n 2 fuel t1 with
      | flash_todo n2 t2 => simp [h2, EepromOutcome.withNic] at h
      | spin n2 t2 => simp [h2, EepromOutcome.withNic] at h
      | ok w2 n2 t2 =>
        have hn2 := eeprom_read_nic n 2 fuel t1
        rw [h2] at hn2
        simp only [EepromOutcome.nic] at hn2
        subst n2
        simp only [h2, EepromOutcome.withNic, MacOutcome.ok.injEq] at h
        obtain ⟨hn', htr⟩ := h
        subst htr
        refine ⟨w0, t0, w1, t1, w2, rfl, h1, h2, ?_⟩
        rw [← hn']
        exact set6 n.mac hlen _ _ _ _ _ _

/-- The concrete NIC used to instantiate the EEPROM theorems: the device
always answers 0x12340010 (done bit set, data word 0x1234). -/
def nicW : NIC :=
  { status_reg := 0, command_reg := 0, bar0 := fun _ _ => 0x12340010,
    eeprom_exists := true, mac := [0, 0, 0, 0, 0, 0] }

/-- nicW after read_mac: every word read 0x1234, so the MAC alternates its
low byte 0x34 and high byte 0x12. -/
def nicWdone : NIC := { nicW with mac := [0x34, 0x12, 0x34, 0x12, 0x34, 0x12] }

/-- The trace of one successful eeprom_read of word 0 on nicW. -/
def trEW : List Ev :=
  [Ev.read 0x10 0x12340010, Ev.write 0x10 0x12340050, Ev.write 0x14 1,
   Ev.read 0x14 0x12340010, Ev.read 0x10 0x12340010, Ev.write 0x10 0x12340010]

/-- The trace of the three EEPROM reads read_mac performs on nicW. -/
def trMacW : List Ev :=
  [Ev.read 0x10 0x12340010, Ev.write 0x10 0x12340050, Ev.write 0x14 1,
   Ev.read 0x14 0x12340010, Ev.read 0x10 0x12340010, Ev.write 0x10 0x12340010,
   Ev.read 0x10 0x12340010, Ev.write 0x10 0x12340050, Ev.write 0x14 257,
   Ev.read 0x14 0x12340010, Ev.read 0x10 0x12340010, Ev.write 0x10 0x12340010,
   Ev.read 0x10 0x12340010, Ev.write 0x10 0x12340050, Ev.write 0x14 513,
   Ev.read 0x14 0x12340010, Ev.read 0x10 0x12340010, Ev.write 0x10 0x12340010]

/-- Witness for C1 at the concrete device nicW. -/
theorem read_mac_little_endian_pairs_instance :
    nicW.mac.length = 6 ∧ read_mac nicW 1 [] = .ok nicWdone trMacW ∧
    ∃ (w0 : Nat) (tr0 : List Ev) (w1 : Nat) (tr1 : List Ev) (w2 : Nat),
      eeprom_read nicW 0 1 [] = .ok w0 nicW tr0 ∧
      eeprom_read nicW 1 1 tr0 = .ok w1 nicW tr1 ∧
      eeprom_read nicW 2 1 tr1 = .ok w2 nicW trMacW ∧
      nicWdone.mac = [w0 &&& 0xff, (w0 >>> 8) &&& 0xff, w1 &&& 0xff, (w1 >>> 8) &&& 0xff,
        w2 &&& 0xff, (w2 >>> 8) &&& 0xff] :=
  ⟨rfl, rfl, read_mac_little_endian_pairs nicW 1 [] nicWdone trMacW rfl rfl⟩

/-- C2: a successful eeprom_read performs the four-step handshake in order —
read-modify-write of EECD setting the request bit 6, a write of EERD with
the start bit 0 set and the address in bits [15:8], repeated reads of EERD
up to the first in which the done bit 4 is set, then a read-modify-write of
EECD clearing bit 6 — and returns bits [31:16] of the EERD value in which
the done bit was first observed; this requires the EEPROM-presence flag. -/
theorem eeprom_read_handshake_order (n : NIC) (addr fuel : Nat) (tr : List Ev)
    (data : Nat) (n' : NIC) (tr' : List Ev)
    (h : eeprom_read n addr fuel tr = .ok data n' tr') :
    n.eeprom_exists = true ∧
    ∃ (v0 : Nat) (vs : List Nat) (v v1 : Nat),
      tr' = tr ++ [Ev.read REG_EECD v0, Ev.write REG_EECD (v0 ||| (1 <<< 6)),
          Ev.write REG_EERD (1 ||| ((addr % 256) <<< 8))]
        ++ vs.map (fun u => Ev.read REG_EERD u) ++ [Ev.read REG_EERD v]
        ++ [Ev.read REG_EECD v1, Ev.write REG_EECD (v1 &&& 0xFFFFFFBF)] ∧
      (∀ u ∈ vs, u &&& (1 <<< 4) = 0) ∧ v &&& (1 <<< 4) ≠ 0 ∧
      data = (v >>> 16) &&& 0xffff :=
  ⟨(eeprom_read_ok_shape n addr fuel tr data n' tr' h).2.1,
   (eeprom_read_ok_shape n addr fuel tr data n' tr' h).2.2⟩

/-- Witness for C2 at the concrete device nicW. -/
theorem eeprom_read_handshake_order_instance :
    eeprom_read nicW 0 1 [] = .ok 0x1234 nicW trEW ∧
    (nicW.eeprom_exists = true ∧
    ∃ (v0 : Nat) (vs : List Nat) (v v1 : Nat),
      trEW = [] ++ [Ev.read REG_EECD v0, Ev.write REG_EECD (v0 ||| (1 <<< 6)),
          Ev.write REG_EERD (1 ||| ((0 % 256) <<< 8))]
        ++ vs.map (fun u => Ev.read REG_EERD u) ++ [Ev.read REG_EERD v]
        ++ [Ev.read REG_EECD v1, Ev.write REG_EECD (v1 &&& 0xFFFFFFBF)] ∧
      (∀ u ∈ vs, u &&& (1 <<< 4) = 0) ∧ v &&& (1 <<< 4) ≠ 0 ∧
      0x1234 = (v >>> 16) &&& 0xffff) :=
  ⟨rfl, eeprom_read_handshake_order nicW 0 1 [] 0x1234 nicW trEW rfl⟩

/-- A NIC whose device never sets the EERD done bit: every read answers
0x100 (so EEPROM detection sees bit 8 set, but bit 4 of EERD is never
set). -/
def devNoDone : NIC :=
  { status_reg := 0, command_reg := 0, bar0 := fun _ _ => 0x100,
    eeprom_exists := true, mac := [0, 0, 0, 0, 0, 0] }

/-- On devNoDone the poll loop never succeeds, whatever the iteration
count. -/
lemma pollEERD_devNoDone : ∀ (fuel : Nat) (tr : List Ev),
    (pollEERD devNoDone fuel tr).1 = none := by
  intro fuel
  induction fuel with
  | zero => intro tr; rfl
  | succ k ih =>
    intro tr
    rw [pollEERD]
    simp only [read_command]
    have hz : devNoDone.bar0 tr REG_EERD % 4294967296 &&& (1 <<< 4) = 0 := by
      show (0x100 : Nat) % 4294967296 &&& (1 <<< 4) = 0
      decide
    rw [if_neg (fun hc => hc hz)]
    exact ih _

/-- A record whose poll never succeeds makes eeprom_read spin whatever the
fuel: the loop never exits and no error is ever reported. -/
lemma eeprom_read_noDone (n : NIC) (hflag : n.eeprom_exists = true)
    (hpoll : ∀ (fuel : Nat) (tr : List Ev), (pollEERD n fuel tr).1 = none)
    (addr fuel : Nat) (tr : List Ev) :
    ∃ t : List Ev, eeprom_read n addr fuel tr = .spin n t := by
  rw [eeprom_read]
  simp only [read_command, write_command]
  rw [if_pos hflag]
  split
  next d t hp =>
    have h2 := congrArg Prod.fst hp
    rw [hpoll] at h2
    exact absurd h2.symm (by simp)
  next t hp =>
    exact ⟨t, rfl⟩

/-- C3 (evidence): the poll step of eeprom_read is not bounded.  On a device
in which the done bit is never observed (every EERD read answers 0x100),
eeprom_read completes within no unrolling bound: for every fuel it is still
spinning, and the driver has no timeout error to report. -/
theorem eeprom_poll_unbounded_spin : ∀ (fuel addr : Nat) (tr : List Ev),
    ∃ t : List Ev, eeprom_read devNoDone addr fuel tr = .spin devNoDone t :=
  fun fuel addr tr => eeprom_read_noDone devNoDone rfl pollEERD_devNoDone addr fuel tr

/-- When the three device inputs are present, construction panics at a
todo!() or spins in the poll loop — it produces no error and no NIC. -/
lemma new_valid_cases (s c : Nat) (b : Bar) (fuel : Nat) :
    (∃ tr : List Ev, NIC.new ⟨some s, some c, some b⟩ fuel = .flash_panic tr) ∨
    (∃ tr : List Ev, NIC.new ⟨some s, some c, some b⟩ fuel = .init_desc_panic tr) ∨
    (∃ tr : List Ev, NIC.new ⟨some s, some c, some b⟩ fuel = .spin tr) := by
  simp only [NIC.new, detect_eeprom, read_command]
  split
  next _ tt _ => exact Or.inl ⟨tt, rfl⟩
  next _ tt _ => exact Or.inr (Or.inr ⟨tt, rfl⟩)
  next nn tt _ => exact Or.inr (Or.inl ⟨tt, by simp [init_desc]⟩)

/-- C4: construction returns a descriptive error exactly when the
enumeration subsystem leaves the status register, the command register or
BAR0 unavailable — "Invalid PCI informations for NIC!" for the registers,
"Invalid BAR for NIC!" for the window — and in every other case it returns
no recoverable error (and never a constructed NIC). -/
theorem new_error_iff_invalid_inputs (dev : PhysicalDevice) (fuel : Nat) :
    ((∃ msg : String, NIC.new dev fuel = .err msg) ↔
      (dev.status_reg = none ∨ dev.command_reg = none ∨ dev.bar0 = none)) ∧
    (NIC.new dev fuel = .err "Invalid PCI informations for NIC!" ↔
      (dev.status_reg = none ∨ (dev.status_reg ≠ none ∧ dev.command_reg = none))) ∧
    (NIC.new dev fuel = .err "Invalid BAR for NIC!" ↔
      (dev.status_reg ≠ none ∧ dev.command_reg ≠ none ∧ dev.bar0 = none)) ∧
    (∀ (n : NIC) (tr : List Ev), NIC.new dev fuel ≠ .ok n tr) := by
  obtain ⟨s, c, b⟩ := dev
  cases s with
  | none => simp [NIC.new]
  | some s =>
    cases c with
    | none => simp [NIC.new]
    | some c =>
      cases b with
      | none => simp [NIC.new]
      | some b =>
        rcases new_valid_cases s c b fuel with ⟨t, ht⟩ | ⟨t, ht⟩ | ⟨t, ht⟩ <;>
          rw [ht] <;> simp

/-- C9 (amended): for every device input, NIC::new never returns a
constructed NIC: it returns one of the two descriptive errors, panics at a
todo!() (the flash path of eeprom_read, or init_desc), or spins forever in
the EEPROM poll. -/
theorem new_never_returns_ok (dev : PhysicalDevice) (fuel : Nat) :
    (∀ (n : NIC) (tr : List Ev), NIC.new dev fuel ≠ .ok n tr) ∧
    (NIC.new dev fuel = .err "Invalid PCI informations for NIC!" ∨
     NIC.new dev fuel = .err "Invalid BAR for NIC!" ∨
     (∃ tr : List Ev, NIC.new dev fuel = .flash_panic tr) ∨
     (∃ tr : List Ev, NIC.new dev fuel = .init_desc_panic tr) ∨
     (∃ tr : List Ev, NIC.new dev fuel = .spin tr)) := by
  obtain ⟨s, c, b⟩ := dev
  cases s with
  | none => exact ⟨by simp [NIC.new], Or.inl (by simp [NIC.new])⟩
  | some s =>
    cases c with
    | none => exact ⟨by simp [NIC.new], Or.inl (by simp [NIC.new])⟩
    | some c =>
      cases b with
      | none => exact ⟨by simp [NIC.new], Or.inr (Or.inl (by simp [NIC.new]))⟩
      | some b =>
        refine ⟨?_, ?_⟩
        · rcases new_valid_cases s c b fuel with ⟨t, ht⟩ | ⟨t, ht⟩ | ⟨t, ht⟩ <;>
            rw [ht] <;> simp
        · rcases new_valid_cases s c b fuel with h | h | h
          · exact Or.inr (Or.inr (Or.inl h))
          · exact Or.inr (Or.inr (Or.inr (Or.inl h)))
          · exact Or.inr (Or.inr (Or.inr (Or.inr h)))

/-- A device with valid registers and window whose reads all answer 0: EECD
bit 8 is clear, so no EEPROM is detected. -/
def devFlash : PhysicalDevice := ⟨some 0, some 0, some (fun _ _ => 0)⟩

/-- C9 (counterexample): with valid inputs but no EEPROM detected,
construction panics at the flash-path todo!() inside eeprom_read — before
ever reaching init_desc. -/
theorem new_flash_panic_before_init_desc :
    NIC.new devFlash 1 = .flash_panic [Ev.read REG_EECD 0, Ev.read REG_EECD 0,
      Ev.write REG_EECD 64, Ev.write REG_EERD 1] ∧
    ∀ tr : List Ev, NIC.new devFlash 1 ≠ .init_desc_panic tr := by
  refine ⟨rfl, ?_⟩
  intro tr h
  rw [show NIC.new devFlash 1 = .flash_panic [Ev.read REG_EECD 0, Ev.read REG_EECD 0,
    Ev.write REG_EECD 64, Ev.write REG_EERD 1] from rfl] at h
  exact NewOutcome.noConfusion h

/-- A bitmask test against a single shifted bit is exactly a testBit. -/
lemma and_bit_ne_zero (m i : Nat) : (m &&& (1 <<< i) ≠ 0) ↔ m.testBit i = true := by
  rw [Nat.shiftLeft_eq, one_mul, Nat.and_two_pow]
  cases h : m.testBit i with
  | false => simp
  | true =>
    have h2 : (2:Nat) ^ i ≠ 0 := Nat.pos_iff_ne_zero.mp (Nat.two_pow_pos i)
    simp [h2]

/-- The trace of a construction with all three inputs present is the trace
read_mac leaves behind after EEPROM detection. -/
lemma new_valid_trace_eq (s c : Nat) (b : Bar) (fuel : Nat) :
    (NIC.new ⟨some s, some c, some b⟩ fuel).trace =
      (read_mac (detect_eeprom (initialNIC s c b) []).1 fuel
        (detect_eeprom (initialNIC s c b) []).2).trace := by
  simp only [NIC.new, detect_eeprom, read_command]
  split <;> simp_all [NewOutcome.trace, MacOutcome.trace, init_desc]

/-- C6: detect_eeprom performs exactly one register access — a read of EECD —
and caches whether bit 8 of the value read is set; eeprom_read and read_mac
never change the cached flag, and a construction that does not fail early
begins with that single detection read. -/
theorem detect_eeprom_single_read_cached :
    (∀ (n : NIC) (tr : List Ev), ∃ v : Nat, detect_eeprom n tr =
      ({ n with eeprom_exists := v &&& (1 <<< 8) != 0 }, tr ++ [Ev.read REG_EECD v])) ∧
    (∀ (n : NIC) (addr fuel : Nat) (tr : List Ev),
      (eeprom_read n addr fuel tr).nic.eeprom_exists = n.eeprom_exists) ∧
    (∀ (n : NIC) (fuel : Nat) (tr : List Ev),
      (read_mac n fuel tr).nic.eeprom_exists = n.eeprom_exists) ∧
    (∀ (dev : PhysicalDevice) (fuel : Nat), (∀ msg : String, NIC.new dev fuel ≠ .err msg) →
      ∃ (v : Nat) (rest : List Ev), (NIC.new dev fuel).trace = Ev.read REG_EECD v :: rest) := by
  refine ⟨?_, ?_, ?_, ?_⟩
  · intro n tr
    exact ⟨n.bar0 tr REG_EECD % 4294967296, rfl⟩
  · intro n addr fuel tr
    rw [eeprom_read_nic]
  · intro n fuel tr
    exact read_mac_flag n fuel tr
  · intro dev fuel hne
    obtain ⟨s, c, b⟩ := dev
    cases s with
    | none => exact absurd rfl (hne "Invalid PCI informations for NIC!")
    | some s =>
      cases c with
      | none => exact absurd rfl (hne "Invalid PCI informations for NIC!")
      | some c =>
        cases b with
        | none => exact absurd rfl (hne "Invalid BAR for NIC!")
        | some b =>
          rw [new_valid_trace_eq s c b fuel]
          obtain ⟨s', hs'⟩ := read_mac_trace_extends (detect_eeprom (initialNIC s c b) []).1
            fuel (detect_eeprom (initialNIC s c b) []).2
          rw [hs']
          exact ⟨(initialNIC s c b).bar0 [] REG_EECD % 4294967296, s', rfl⟩

/-- C7: the EEPROM protocol touches only the documented register offsets —
EECD at 0x10 and EERD at 0x14 — with the documented bit assignments:
presence bit 8 of EECD for detection, request bit 6 of EECD set on acquire
and cleared on release, start bit 0 and address bits [15:8] in the EERD
issue value, done bit 4 polled, and the data taken from bits [31:16]. -/
theorem eeprom_register_offsets_bits :
    REG_EECD = 0x10 ∧ REG_EERD = 0x14 ∧
    (∀ (n : NIC) (tr : List Ev) (e : Ev),
      e ∈ ((detect_eeprom n tr).2).drop tr.length → Ev.addr e = REG_EECD) ∧
    (∀ (n : NIC) (addr fuel : Nat) (tr : List Ev) (e : Ev),
      e ∈ ((eeprom_read n addr fuel tr).trace).drop tr.length →
        Ev.addr e = REG_EECD ∨ Ev.addr e = REG_EERD) ∧
    (∀ (n : NIC) (tr : List Ev),
      ((detect_eeprom n tr).1.eeprom_exists = true ↔
        (n.bar0 tr REG_EECD % 4294967296).testBit 8 = true)) ∧
    (∀ v : Nat, (v ||| (1 <<< 6)).testBit 6 = true ∧ (v &&& 0xFFFFFFBF).testBit 6 = false) ∧
    (∀ addr : Nat, (1 ||| ((addr % 256) <<< 8)).testBit 0 = true ∧
      ∀ k : Nat, (1 ||| ((addr % 256) <<< 8)).testBit (8 + k) = (addr % 256).testBit k) ∧
    (∀ (n : NIC) (addr fuel : Nat) (tr : List Ev) (data : Nat) (n' : NIC) (tr' : List Ev),
      eeprom_read n addr fuel tr = .ok data n' tr' →
        ∃ v : Nat, v.testBit 4 = true ∧ data = (v >>> 16) &&& 0xffff ∧
          Ev.read REG_EERD v ∈ tr') := by
  refine ⟨rfl, rfl, ?_, ?_, ?_, ?_, ?_, ?_⟩
  · intro n tr e he
    have hd : (detect_eeprom n tr).2 =
        tr ++ [Ev.read REG_EECD (n.bar0 tr REG_EECD % 4294967296)] := rfl
    rw [hd, List.drop_left] at he
    simp only [List.mem_cons, List.not_mem_nil, or_false] at he
    subst he
    rfl
  · intro n addr fuel tr e he
    obtain ⟨s, hs, hmem⟩ := eeprom_read_addrs n addr fuel tr
    rw [hs, List.drop_left] at he
    exact hmem e he
  · intro n tr
    show ((n.bar0 tr REG_EECD % 4294967296) &&& (1 <<< 8) != 0) = true ↔ _
    rw [bne_iff_ne]
    exact and_bit_ne_zero _ 8
  · intro v
    constructor
    · simp only [Nat.testBit_or, Bool.or_eq_true]
      exact Or.inr (by decide)
    · have h2 : Nat.testBit 0xFFFFFFBF 6 = false := by decide
      simp [Nat.testBit_and, h2]
  · intro addr
    refine ⟨?_, ?_⟩
    · have h1 : Nat.testBit 1 0 = true := by decide
      simp [Nat.testBit_or, h1]
    · intro k
      have h1 : Nat.testBit 1 (8 + k) = false := by
        apply Nat.testBit_lt_two_pow
        have h256 : (2:Nat) ^ 8 ≤ 2 ^ (8 + k) := Nat.pow_le_pow_right (by omega) (by omega)
        have h2 : (2:Nat) ^ 8 = 256 := by norm_num
        omega
      simp [Nat.testBit_or, Nat.testBit_shiftLeft, h1,
        show (8:Nat) ≤ 8 + k from Nat.le_add_right 8 k,
        show 8 + k - 8 = k from by omega]
  · intro n addr fuel tr data n' tr' h
    obtain ⟨-, -, v0, vs, v, v1, htr, hclear, hset, hdata⟩ :=
      eeprom_read_ok_shape n addr fuel tr data n' tr' h
    refine ⟨v, (and_bit_ne_zero v 4).mp hset, hdata, ?_⟩
    rw [htr]
    simp

/-- C8: get_mac returns exactly the MAC cached in the device state — it
reads no register and recomputes nothing — and no other operation changes
the cached MAC: detection and EEPROM reads leave it untouched. -/
theorem get_mac_returns_cached :
    (∀ n : NIC, get_mac n = n.mac) ∧
    (∀ (n : NIC) (tr : List Ev), ((detect_eeprom n tr).1).mac = n.mac) ∧
    (∀ (n : NIC) (addr fuel : Nat) (tr : List Ev),
      ((eeprom_read n addr fuel tr).nic).mac = n.mac) ∧
    (∀ (n : NIC) (fuel : Nat) (tr : List Ev) (n' : NIC) (tr' : List Ev),
      read_mac n fuel tr = .ok n' tr' → get_mac n' = n'.mac) := by
  refine ⟨fun n => rfl, fun n tr => rfl, ?_, fun n fuel tr n' tr' _ => rfl⟩
  intro n addr fuel tr
  rw [eeprom_read_nic]

/-- C10: each construction-time operation writes only its own field —
detect_eeprom only eeprom_exists, read_mac only mac — and eeprom_read,
read_command and write_command return the record unchanged (status_reg,
command_reg and bar0 are unchanged by all of them). -/
theorem construction_frame_conditions :
    (∀ (n : NIC) (tr : List Ev), (detect_eeprom n tr).1 =
      { n with eeprom_exists := (detect_eeprom n tr).1.eeprom_exists }) ∧
    (∀ (n : NIC) (fuel : Nat) (tr : List Ev), (read_mac n fuel tr).nic =
      { n with mac := (read_mac n fuel tr).nic.mac }) ∧
    (∀ (n : NIC) (addr fuel : Nat) (tr : List Ev), (eeprom_read n addr fuel tr).nic = n) ∧
    (∀ (n : NIC) (tr : List Ev) (addr : Nat), (read_command n tr addr).2.1 = n) ∧
    (∀ (n : NIC) (tr : List Ev) (addr val : Nat), (write_command n tr addr val).1 = n) :=
  ⟨fun _ _ => rfl, read_mac_nic_frame, eeprom_read_nic, fun _ _ _ => rfl,
   fun _ _ _ _ => rfl⟩

/-! ### Lemmas about the modelled transmit path -/

/-- Every chunk the splitter produces is nonempty and at most TX_MAX long. -/
lemma txSplitAux_chunk_bounds : ∀ (fuel base len : Nat), ∀ ch ∈ txSplitAux fuel base len,
    0 < ch.2 ∧ ch.2 ≤ TX_MAX := by
  intro fuel
  induction fuel with
  | zero => intro base len ch h; simp [txSplitAux] at h
  | succ k ih =>
    intro base len ch h
    rw [txSplitAux] at h
    by_cases h0 : len = 0
    · simp [h0] at h
    · rw [if_neg h0] at h
      by_cases h1 : len ≤ TX_MAX
      · rw [if_pos h1] at h
        simp only [List.mem_cons, List.not_mem_nil, or_false] at h
        subst h
        exact ⟨Nat.pos_of_ne_zero h0, h1⟩
      · rw [if_neg h1] at h
        rcases List.mem_cons.mp h with rfl | hmem
        · exact ⟨by show 0 < TX_MAX; decide, Nat.le_refl _⟩
        · exact ih _ _ ch hmem

/-- With enough fuel the chunk lengths sum to the buffer length. -/
lemma txSplitAux_sum : ∀ (fuel base len : Nat), len ≤ fuel →
    ((txSplitAux fuel base len).map (fun ch => ch.2)).sum = len := by
  intro fuel
  induction fuel with
  | zero =>
    intro base len h
    have h0 : len = 0 := Nat.le_zero.mp h
    subst h0
    simp [txSplitAux]
  | succ k ih =>
    intro base len h
    rw [txSplitAux]
    by_cases h0 : len = 0
    · simp [h0]
    · rw [if_neg h0]
      by_cases h1 : len ≤ TX_MAX
      · rw [if_pos h1]; simp
      · rw [if_neg h1]
        simp only [List.map_cons, List.sum_cons]
        rw [ih (base + TX_MAX) (len - TX_MAX)
          (by simp only [TX_MAX] at h1 ⊢; omega)]
        simp only [TX_MAX] at h1 ⊢
        omega

/-- With enough fuel the splitter produces exactly ceil(len / TX_MAX)
chunks. -/
lemma txSplitAux_length : ∀ (fuel base len : Nat), len ≤ fuel →
    (txSplitAux fuel base len).length = (len + (TX_MAX - 1)) / TX_MAX := by
  intro fuel
  induction fuel with
  | zero =>
    intro base len h
    have h0 : len = 0 := Nat.le_zero.mp h
    subst h0
    simp [txSplitAux, TX_MAX]
  | succ k ih =>
    intro base len h
    rw [txSplitAux]
    by_cases h0 : len = 0
    · subst h0; simp [TX_MAX]
    · rw [if_neg h0]
      by_cases h1 : len ≤ TX_MAX
      · rw [if_pos h1]
        simp only [List.length_cons, List.length_nil]
        simp only [TX_MAX] at h1 ⊢
        omega
      · rw [if_neg h1]
        simp only [List.length_cons]
        rw [ih (base + TX_MAX) (len - TX_MAX)
          (by simp only [TX_MAX] at h1 ⊢; omega)]
        simp only [TX_MAX] at h1 ⊢
        omega

/-- The command byte of a populated descriptor: Insert-FCS | Report-Status,
plus End-of-Packet on the last chunk. -/
lemma txDescFor_cmd_val (c : Nat × Nat) (b : Bool) :
    (txDescFor c b).cmd = if b then 11 else 10 := by
  cases b <;> rfl

/-- Descriptors carry exactly the chunks' addresses and lengths, in order. -/
lemma txDescs_map_addr_len : ∀ cs : List (Nat × Nat),
    (txDescs cs).map (fun d => (d.addr, d.length)) = cs := by
  intro cs
  induction cs with
  | nil => rfl
  | cons c cs ih =>
    cases cs with
    | nil => rfl
    | cons c' cs' =>
      rw [show txDescs (c :: c' :: cs') = txDescFor c false :: txDescs (c' :: cs') from rfl]
      simp only [List.map_cons, ih]
      rfl

/-- One descriptor per chunk. -/
lemma txDescs_length (cs : List (Nat × Nat)) : (txDescs cs).length = cs.length := by
  have h := congrArg List.length (txDescs_map_addr_len cs)
  simpa using h

/-- The descriptors' lengths are the chunk lengths. -/
lemma txDescs_map_len (cs : List (Nat × Nat)) :
    (txDescs cs).map (fun d => d.length) = cs.map (fun ch => ch.2) := by
  have h := congrArg (List.map (fun p : Nat × Nat => p.2)) (txDescs_map_addr_len cs)
  simpa [List.map_map, Function.comp] using h

/-- Insert-FCS and Report-Status are set on every descriptor's command
byte. -/
lemma txDescs_cmd : ∀ (cs : List (Nat × Nat)), ∀ d ∈ txDescs cs,
    d.cmd &&& TX_CMD_IFCS ≠ 0 ∧ d.cmd &&& TX_CMD_RS ≠ 0 := by
  intro cs
  induction cs with
  | nil => intro d h; simp [txDescs] at h
  | cons c cs ih =>
    intro d h
    cases cs with
    | nil =>
      simp only [txDescs, List.mem_cons, List.not_mem_nil, or_false] at h
      subst h
      rw [txDescFor_cmd_val] at *
      exact ⟨by decide, by decide⟩
    | cons c' cs' =>
      rw [show txDescs (c :: c' :: cs') = txDescFor c false :: txDescs (c' :: cs') from rfl] at h
      rcases List.mem_cons.mp h with rfl | hmem
      · rw [txDescFor_cmd_val] at *
        exact ⟨by decide, by decide⟩
      · exact ih d hmem

/-- End-of-Packet is set exactly on the final descriptor. -/
lemma txDescs_eop : ∀ (cs : List (Nat × Nat)) (i : Nat) (hi : i < (txDescs cs).length),
    (((txDescs cs).get ⟨i, hi⟩).cmd &&& TX_CMD_EOP ≠ 0 ↔ i = (txDescs cs).length - 1) := by
  intro cs
  induction cs with
  | nil => intro i hi; simp [txDescs] at hi
  | cons c cs ih =>
    intro i hi
    cases cs with
    | nil =>
      have hi0 : i = 0 := by
        have h1 : (txDescs [c]).length = 1 := by rw [txDescs_length]; rfl
        omega
      subst hi0
      show (txDescFor c true).cmd &&& TX_CMD_EOP ≠ 0 ↔ 0 = 1 - 1
      rw [txDescFor_cmd_val]
      decide
    | cons c' cs' =>
      have hlen : (txDescs (c' :: cs')).length = cs'.length + 1 := by
        rw [txDescs_length]; rfl
      cases i with
      | zero =>
        show (txDescFor c false).cmd &&& TX_CMD_EOP ≠ 0 ↔
          0 = (txDescs (c' :: cs')).length + 1 - 1
        rw [txDescFor_cmd_val]
        constructor
        · intro hx; exact absurd hx (by decide)
        · intro hx; exfalso; rw [hlen] at hx; omega
      | succ j =>
        have hj : j < (txDescs (c' :: cs')).length := by
          have h1 : (txDescs (c :: c' :: cs')).length = (txDescs (c' :: cs')).length + 1 := by
            rw [show txDescs (c :: c' :: cs') = txDescFor c false :: txDescs (c' :: cs') from rfl]
            rfl
          omega
        show ((txDescs (c' :: cs')).get ⟨j, hj⟩).cmd &&& TX_CMD_EOP ≠ 0 ↔
          j + 1 = (txDescs (c' :: cs')).length + 1 - 1
        rw [ih j hj, hlen]
        omega

/-- C5 (modelled from the spec; the source body is a todo!() placeholder):
the transmit path splits the buffer into chunks of at most 65,535 bytes,
produces exactly ceil(len / 65535) descriptors carrying exactly the chunks'
addresses and lengths (which sum back to the buffer length), sets Insert-FCS
and Report-Status on every descriptor's command byte, and sets End-of-Packet
exactly on the final descriptor. -/
theorem write_chunk_descriptors (base len : Nat) :
    (txWrite base len).length = (len + (TX_MAX - 1)) / TX_MAX ∧
    (txWrite base len).map (fun d => (d.addr, d.length)) = txSplit base len ∧
    ((txWrite base len).map (fun d => d.length)).sum = len ∧
    (∀ d ∈ txWrite base len, d.length ≤ TX_MAX ∧
      d.cmd &&& TX_CMD_IFCS ≠ 0 ∧ d.cmd &&& TX_CMD_RS ≠ 0) ∧
    (∀ (i : Nat) (hi : i < (txWrite base len).length),
      (((txWrite base len).get ⟨i, hi⟩).cmd &&& TX_CMD_EOP ≠ 0 ↔
        i = (txWrite base len).length - 1)) := by
  refine ⟨?_, txDescs_map_addr_len _, ?_, ?_, ?_⟩
  · rw [txWrite, txDescs_length]
    exact txSplitAux_length len base len (Nat.le_refl len)
  · rw [txWrite, txDescs_map_len]
    exact txSplitAux_sum len base len (Nat.le_refl len)
  · intro d hd
    have hch : (d.addr, d.length) ∈ txSplit base len := by
      rw [← txDescs_map_addr_len (txSplit base len)]
      exact List.mem_map_of_mem _ hd
    have hb := txSplitAux_chunk_bounds len base len _ hch
    exact ⟨hb.2, (txDescs_cmd _ d hd).1, (txDescs_cmd _ d hd).2⟩
  · intro i hi
    exact txDescs_eop (txSplit base len) i hi

end E1000
